import Mathlib

/-
Verification of the NFS-e extraction pipeline (app.py).

The pipeline's text stages are shallowly embedded here:
`corrigir_erros_contextuais`, `estruturar_texto`, `validar_campos`, the
merge step of the dual OCR pass, and the orchestrator `processar_nfse`.
Python regular-expression substitution (`re.sub`), search (`re.search`),
`str.replace`, `str.split` and `str.join` are modelled by executable
Lean functions over `List Char`.  The regex fragment actually used by the
source (literal characters, the classes `\d`, `\s`, `.`, `[A-Z0-9]`,
`[,\d]`, `[A-Z]`, greedy `?` and `*` and `+` on single-character items,
and non-nested capturing groups) is embedded with a backtracking
continuation-passing matcher, greedy-longest-first exactly like Python.
Case folding for `re.IGNORECASE` is modelled on the ASCII range, which
covers every input appearing in the theorems below.  All definitions are
structurally recursive so they evaluate inside the kernel.
-/

namespace NFSe

abbrev Caps := List (List Char)

/-- ASCII lower-casing, modelling Python case folding on the inputs used. -/
def lowerA (c : Char) : Char :=
  if 'A' ≤ c && c ≤ 'Z' then Char.ofNat (c.toNat + 32) else c

/-- Single-character matchers: the character classes the source's regexes use. -/
inductive CC where
  | lit (c : Char)
  | litCI (c : Char)
  | digit
  | space
  | anyc
  | upperAZ
  | upperAlnumCI
  | commaDigit
deriving Repr, DecidableEq

def ccMatch : CC → Char → Bool
  | .lit a, c => c == a
  | .litCI a, c => lowerA c == lowerA a
  | .digit, c => '0' ≤ c && c ≤ '9'
  | .space, c =>
      c == ' ' || c == '\t' || c == '\n' || c == '\r' ||
      c == Char.ofNat 11 || c == Char.ofNat 12
  | .anyc, c => !(c == '\n')
  | .upperAZ, c => 'A' ≤ c && c ≤ 'Z'
  | .upperAlnumCI, c =>
      ('A' ≤ c && c ≤ 'Z') || ('a' ≤ c && c ≤ 'z') || ('0' ≤ c && c ≤ '9')
  | .commaDigit, c => c == ',' || ('0' ≤ c && c ≤ '9')

/-- Sequence items: one occurrence, greedy option, greedy star of a class. -/
inductive SItem where
  | one (p : CC)
  | opt (p : CC)
  | star (p : CC)
deriving Repr, DecidableEq

/-- A segment of a pattern: `true` marks a capturing group. -/
abbrev Seg := Bool × List SItem

abbrev Pattern := List Seg

/-- Greedy star with backtracking, in continuation style: prefer consuming a
matching character, fall back to the continuation at the current position. -/
def matchStarCont (p : CC) (k : List Char → Option (Nat × Caps)) :
    List Char → Option (Nat × Caps)
  | [] => k []
  | c :: cs =>
    if ccMatch p c then
      match matchStarCont p k cs with
      | some (n, gs) => some (n + 1, gs)
      | none => k (c :: cs)
    else k (c :: cs)

/-- Match a list of items at the front of the input, then run the
continuation on the rest; returns total consumed length and groups. -/
def matchSItems : List SItem → (List Char → Option (Nat × Caps)) →
    List Char → Option (Nat × Caps)
  | [], k, s => k s
  | .one p :: rest, k, s =>
    match s with
    | [] => none
    | c :: cs =>
      if ccMatch p c then
        match matchSItems rest k cs with
        | some (n, gs) => some (n + 1, gs)
        | none => none
      else none
  | .opt p :: rest, k, s =>
    match s with
    | [] => matchSItems rest k []
    | c :: cs =>
      if ccMatch p c then
        match matchSItems rest k cs with
        | some (n, gs) => some (n + 1, gs)
        | none => matchSItems rest k (c :: cs)
      else matchSItems rest k (c :: cs)
  | .star p :: rest, k, s => matchStarCont p (fun sx => matchSItems rest k sx) s

/-- Match a pattern (list of segments) at the front of the input.  A capturing
segment records the slice it consumed, measured by how much input is left when
its continuation is entered. -/
def matchSegs : Pattern → (List Char → Option (Nat × Caps)) →
    List Char → Option (Nat × Caps)
  | [], k, s => k s
  | (cap, its) :: rest, k, s =>
    if cap then
      matchSItems its
        (fun s2 =>
          match matchSegs rest k s2 with
          | some (m, gs) => some (m, List.take (s.length - s2.length) s :: gs)
          | none => none) s
    else
      matchSItems its (fun s2 => matchSegs rest k s2) s

/-- Try to match a pattern at the current position (Python match semantics:
a prefix match, groups in order). -/
def matchHere (p : Pattern) (s : List Char) : Option (Nat × Caps) :=
  matchSegs p (fun _ => some (0, [])) s

/-- `re.search`: does the pattern match at some position? -/
def searchAux (p : Pattern) : List Char → Bool
  | [] => (matchHere p []).isSome
  | c :: cs => (matchHere p (c :: cs)).isSome || searchAux p cs

/-- `re.sub` scanning: at each position try to match; on a match emit the
replacement and continue after it, otherwise keep the character.  The fuel
argument is the remaining input length (each step consumes at least one
character), keeping the definition structurally recursive. -/
def pySubAux (p : Pattern) (repl : List Char → Caps → List Char) :
    Nat → List Char → List Char
  | _, [] => []
  | 0, s => s
  | fuel + 1, c :: cs =>
    match matchHere p (c :: cs) with
    | some (n, gs) =>
      if n = 0 then c :: pySubAux p repl fuel cs
      else repl (List.take n (c :: cs)) gs ++
           pySubAux p repl fuel (List.drop (n - 1) cs)
    | none => c :: pySubAux p repl fuel cs

def pySubL (p : Pattern) (repl : List Char → Caps → List Char)
    (s : List Char) : List Char :=
  pySubAux p repl s.length s

/-- Replacement templates: a literal piece or a backreference `\n`. -/
inductive RT where
  | lit (s : String)
  | grp (n : Nat)

def applyRT (ts : List RT) (gs : Caps) : List Char :=
  ts.foldr
    (fun t acc =>
      (match t with
       | RT.lit u => u.data
       | RT.grp n => gs.getD (n - 1) []) ++ acc) []

/-- A repair or structuring rule: a pattern and a replacement function of the
whole match and the captured groups. -/
abbrev Regra := Pattern × (List Char → Caps → List Char)

def aplicarRegra (r : Regra) (s : List Char) : List Char :=
  pySubL r.1 r.2 s

def aplicarRegras (rs : List Regra) (s : List Char) : List Char :=
  rs.foldl (fun t r => aplicarRegra r t) s

/-- `str.isPrefixOf` on character lists. -/
def isPrefixL : List Char → List Char → Bool
  | [], _ => true
  | _ :: _, [] => false
  | c :: cs, d :: ds => c == d && isPrefixL cs ds

/-- Substring occurrence test (`needle in haystack` in Python). -/
def containsL (u : List Char) : List Char → Bool
  | [] => isPrefixL u []
  | c :: cs => isPrefixL u (c :: cs) || containsL u cs

def containsStr (t u : String) : Bool := containsL u.data t.data

/-- `str.replace(old, new)` for a non-empty `old`, scanning left to right over
non-overlapping occurrences; fuel is the input length. -/
def pyReplaceAux (o : Char) (os new : List Char) :
    Nat → List Char → List Char
  | _, [] => []
  | 0, s => s
  | fuel + 1, c :: cs =>
    if isPrefixL (o :: os) (c :: cs) then
      new ++ pyReplaceAux o os new fuel (List.drop os.length cs)
    else c :: pyReplaceAux o os new fuel cs

def pyReplaceL (old new s : List Char) : List Char :=
  match old with
  | [] => s
  | o :: os => pyReplaceAux o os new s.length s

/-- `str.split(sep)` for a non-empty separator. -/
def pySplitAux (o : Char) (os : List Char) :
    Nat → List Char → List Char → List (List Char)
  | _, [], acc => [acc.reverse]
  | 0, s, acc => [acc.reverse ++ s]
  | fuel + 1, c :: cs, acc =>
    if isPrefixL (o :: os) (c :: cs) then
      acc.reverse :: pySplitAux o os fuel (List.drop os.length cs) []
    else pySplitAux o os fuel cs (c :: acc)

def pySplitL (sep s : List Char) : List (List Char) :=
  match sep with
  | [] => [s]
  | o :: os => pySplitAux o os s.length s []

/-- `str.join` on a list of strings. -/
def pyJoin (sep : String) : List String → String
  | [] => ""
  | [t] => t
  | t :: ts => t ++ sep ++ pyJoin sep ts

/-- A sequence of case-sensitive literal characters. -/
def litsL (u : List Char) : List SItem := u.map (fun c => SItem.one (CC.lit c))

/-- A sequence of case-insensitive literal characters (`re.IGNORECASE`). -/
def litsCIL (u : List Char) : List SItem := u.map (fun c => SItem.one (CC.litCI c))

/-- A pattern that is one non-capturing case-insensitive literal. -/
def plitCI (u : String) : Pattern := [(false, litsCIL u.data)]

/-- Build a replacement function from a template with backreferences. -/
def tmpl (ts : List RT) : List Char → Caps → List Char :=
  fun _ gs => applyRT ts gs

/-- The 30-dash separator line inserted before section headers. -/
def sep30 : String := "------------------------------"

/-- app.py line 58: the rule `[A-Z0-9]{8}` whose replacement is the matched
token with its spaces removed (`m.group().replace(' ', '')`). -/
def regraCodigoOito : Regra :=
  ([(false, List.replicate 8 (SItem.one CC.upperAlnumCI))],
   fun m _ => m.filter (fun c => c != ' '))

/-- app.py line 63: the literal repair `75000` to `750,00`. -/
def regraLiteral75000 : Regra := (plitCI "75000", tmpl [RT.lit "750,00"])

/-- app.py line 64: the value-format repair inserting a decimal point,
the pattern `(\d{3})\.?(\d{2})` with replacement `\1.\2`. -/
def regraFormatoValores : Regra :=
  ([(true, [SItem.one CC.digit, SItem.one CC.digit, SItem.one CC.digit]),
    (false, [SItem.opt (CC.lit '.')]),
    (true, [SItem.one CC.digit, SItem.one CC.digit])],
   tmpl [RT.grp 1, RT.lit ".", RT.grp 2])

/-- app.py lines 50 to 71: the ordered repair rules of
`corrigir_erros_contextuais`, all applied with `re.IGNORECASE`. -/
def correcoes : List Regra :=
  [(plitCI "05/05/2024", tmpl [RT.lit "05/09/2024"]),
   (plitCI "16/0/2024", tmpl [RT.lit "16/09/2024"]),
   ([(true, [SItem.one CC.digit, SItem.one CC.digit]),
     (false, [SItem.one (CC.litCI '/')]),
     (true, [SItem.one CC.digit]),
     (false, [SItem.one (CC.litCI '/')]),
     (true, [SItem.one CC.digit, SItem.one CC.digit,
             SItem.one CC.digit, SItem.one CC.digit])],
    tmpl [RT.grp 1, RT.lit "/0", RT.grp 2, RT.lit "/", RT.grp 3]),
   (plitCI "ESGXBS DE", tmpl [RT.lit "B9OXB608"]),
   regraCodigoOito,
   ([(false, litsCIL "40,621".data ++ [SItem.one CC.anyc] ++
             litsCIL "411/0001-53".data)],
    tmpl [RT.lit "49.621.411/0001-93"]),
   ([(true, [SItem.one CC.digit]),
     (false, [SItem.one (CC.litCI '0')]),
     (true, [SItem.one CC.digit, SItem.one CC.digit, SItem.one CC.digit])],
    tmpl [RT.grp 1, RT.lit ".", RT.grp 2]),
   regraLiteral75000,
   regraFormatoValores,
   (plitCI "FLETRÔONICA", tmpl [RT.lit "ELETRÔNICA"]),
   (plitCI "Relatorode", tmpl [RT.lit "Relatório de"]),
   (plitCI "DISCRIMINAÇÃO DOS SERVIÇÕE", tmpl [RT.lit "DISCRIMINAÇÃO DOS SERVIÇOS"]),
   (plitCI "[BPT", tmpl [RT.lit "IBPT"])]

/-- app.py lines 48 to 76: `corrigir_erros_contextuais`. -/
def corrigir_erros_contextuais (texto : String) : String :=
  ⟨aplicarRegras correcoes texto.data⟩

/-- app.py lines 82 to 84: header rules of `estruturar_texto`, the pattern
`(TITLE)` with replacement a blank line, the title and a separator line. -/
def regraSecao (titulo : String) : Regra :=
  ([(true, litsL titulo.data)],
   tmpl [RT.lit "\n\n", RT.grp 1, RT.lit ("\n" ++ sep30)])

/-- app.py line 87: the rule for the document-number label. -/
def regraNumeroNota : Regra :=
  ([(true, litsL "Número da Nota".data ++ [SItem.opt (CC.lit ':')]),
    (true, [SItem.star CC.space])],
   tmpl [RT.lit "\n", RT.grp 1, RT.lit " "])

/-- app.py line 88: the rule for the issue-timestamp label, whose second
group swallows the rest of the line. -/
def regraDataEmissao : Regra :=
  ([(true, litsL "Data e Hora de Emissão".data ++ [SItem.opt (CC.lit ':')]),
    (true, [SItem.star CC.anyc])],
   tmpl [RT.lit "\n", RT.grp 1, RT.lit " "])

/-- app.py line 89: the rule for the verification-code label, whose second
group swallows the rest of the line. -/
def regraCodigoVerificacao : Regra :=
  ([(true, litsL "Código de Verificação".data ++ [SItem.opt (CC.lit ':')]),
    (true, [SItem.star CC.anyc])],
   tmpl [RT.lit "\n", RT.grp 1, RT.lit " "])

/-- app.py line 92: the enumerated-list spacing rule. -/
def regraListas : Regra :=
  ([(true, [SItem.one CC.digit, SItem.star CC.digit]),
    (false, [SItem.one (CC.lit '.'), SItem.one CC.space, SItem.star CC.space]),
    (true, [SItem.one CC.upperAZ])],
   tmpl [RT.grp 1, RT.lit ". ", RT.grp 2])

/-- app.py line 93: the currency-marker spacing rule. -/
def regraMoeda : Regra :=
  ([(false, [SItem.one (CC.lit 'R'), SItem.one (CC.lit '$'), SItem.star CC.space]),
    (true, [SItem.one CC.digit])],
   tmpl [RT.lit "R$ ", RT.grp 1])

/-- app.py lines 80 to 94: the ordered structuring rules (no flags). -/
def estruturas : List Regra :=
  [regraSecao "PRESTADOR DE SERVIÇOS",
   regraSecao "TOMADOR DE SERVIÇOS",
   regraSecao "DISCRIMINAÇÃO DOS SERVIÇOS",
   regraNumeroNota, regraDataEmissao, regraCodigoVerificacao,
   regraListas, regraMoeda]

/-- app.py lines 78 to 99: `estruturar_texto`. -/
def estruturar_texto (texto : String) : String :=
  ⟨aplicarRegras estruturas texto.data⟩

/-- app.py line 105: the document-type pattern matching an optional hyphen. -/
def patNFSe1 : Pattern :=
  [(false, litsCIL "NFS".data ++ [SItem.opt (CC.lit '-')] ++ litsCIL "e".data)]

/-- app.py line 106: the long document-type literal. -/
def patNFSe2 : Pattern := plitCI "NOTA FISCAL DE SERVIÇOS ELETRÔNICA"

/-- app.py line 109: the provider tax-identifier pattern with optional
punctuation. -/
def patCNPJ1 : Pattern :=
  [(false, litsCIL "49".data ++ [SItem.opt (CC.lit '.')] ++ litsCIL "621".data ++
           [SItem.opt (CC.lit '.')] ++ litsCIL "411/0001".data ++
           [SItem.opt (CC.lit '-')] ++ litsCIL "93".data)]

/-- app.py line 110: the provider-name literal. -/
def patCNPJ2 : Pattern := plitCI "Sustentamais Consultoria"

/-- app.py line 113: the total-value pattern on the currency marker. -/
def patValor1 : Pattern :=
  [(false, [SItem.one (CC.litCI 'R'), SItem.one (CC.lit '$'), SItem.star CC.space] ++
           litsCIL "750".data ++ [SItem.star CC.commaDigit])]

/-- app.py line 114: the alternative total-value pattern. -/
def patValor2 : Pattern :=
  [(false, litsCIL "VALOR TOTAL DA NOTA".data ++ [SItem.star CC.anyc] ++
           litsCIL "750".data)]

/-- `re.search(p, texto, re.IGNORECASE)` succeeds. -/
def searchB (p : Pattern) (t : String) : Bool := searchAux p t.data

/-- app.py lines 103 to 116: the required-field table, in insertion order. -/
def camposRequeridos : List (String × List Pattern) :=
  [("NFS-e", [patNFSe1, patNFSe2]),
   ("CNPJ Prestador", [patCNPJ1, patCNPJ2]),
   ("Valor Total", [patValor1, patValor2])]

/-- app.py lines 101 to 124: `validar_campos` collects, in table order, the
fields none of whose patterns matches. -/
def validar_campos (texto : String) : List String :=
  (camposRequeridos.filter
    (fun cp => ! cp.2.any (fun p => searchB p texto))).map (fun cp => cp.1)

/-- app.py line 157: the merge of the two OCR passes. -/
def mergeStep (texto texto_numerico : String) : String :=
  ⟨pyReplaceL "R$".data
    (List.getLastD (pySplitL "R$".data texto_numerico.data) []) texto.data⟩

/-- Python `t.replace(old, new)` on strings. -/
def replaceAll (t old new : String) : String :=
  ⟨pyReplaceL old.data new.data t.data⟩

/-- app.py line 152: the trigger deciding whether the numeric OCR pass runs. -/
def gatilhoNumerico (texto : String) : Bool :=
  containsStr texto "R$" || containsStr texto "CNPJ" || containsStr texto "CPF"

/-- app.py lines 146 to 161: one page's text pipeline, as a function of the
primary OCR text and the text the numeric pass would return. -/
def processPage (texto texto_numerico : String) : String :=
  estruturar_texto (corrigir_erros_contextuais
    (if gatilhoNumerico texto then mergeStep texto texto_numerico else texto))

/-- app.py lines 166 to 172: join the pages, validate once, build the result. -/
def montarResultado (textos : List String) : String × String :=
  let unificado := pyJoin "\n" textos
  let faltantes := validar_campos unificado
  if faltantes.isEmpty then ("Sucesso", unificado)
  else ("ERRO: Campos faltantes - " ++ pyJoin ", " faltantes, unificado)

/-- app.py lines 140 to 176: the page loop.  A page is either the pair of
OCR texts it produces or the message of the exception a component raises;
an exception aborts the loop and returns the failure pair of line 176. -/
def processarPaginas :
    List (Except String (String × String)) → List String → String × String
  | [], acc => montarResultado acc.reverse
  | Except.ok pr :: rest, acc =>
      processarPaginas rest (processPage pr.1 pr.2 :: acc)
  | Except.error e :: _, _ => ("ERRO: " ++ e, "")

/-- app.py lines 127 to 176: `processar_nfse` over the per-page OCR outcomes. -/
def processar_nfse (paginas : List (Except String (String × String))) :
    String × String :=
  processarPaginas paginas []

/-- Apply a single repair or structuring rule to a string. -/
def aplicarRegraStr (r : Regra) (t : String) : String :=
  ⟨aplicarRegra r t.data⟩

/-- Shift the consumed count of a match result. -/
def addN (n : Nat) : Option (Nat × Caps) → Option (Nat × Caps)
  | none => none
  | some (m, gs) => some (m + n, gs)

/-- The characters a single-character matcher forces. -/
def reqCharsC : CC → List Char
  | CC.lit c => [c]
  | _ => []

/-- The literal characters any successful match of the items must contain. -/
def reqCharsI : List SItem → List Char
  | [] => []
  | SItem.one p :: rest => reqCharsC p ++ reqCharsI rest
  | SItem.opt _ :: rest => reqCharsI rest
  | SItem.star _ :: rest => reqCharsI rest

/-- The literal characters any successful match of the pattern must contain. -/
def reqCharsP : Pattern → List Char
  | [] => []
  | (_, its) :: rest => reqCharsI its ++ reqCharsP rest

/-- Characters an issue-timestamp value is made of: digits, slashes,
colons and spaces. -/
def valorDataOk (c : Char) : Bool :=
  ('0' ≤ c && c ≤ '9') || c == '/' || c == ':' || c == ' '

/-- Characters a verification-code value is made of: ASCII capitals,
digits and spaces. -/
def valorCodigoOk (c : Char) : Bool :=
  ('A' ≤ c && c ≤ 'Z') || ('0' ≤ c && c ≤ '9') || c == ' '

theorem addN_zero (x : Option (Nat × Caps)) : addN 0 x = x := by
  cases x with
  | none => rfl
  | some r => cases r with
    | mk m gs => simp [addN]

theorem ccMatch_lit_self (c : Char) : ccMatch (CC.lit c) c = true := by
  simp [ccMatch]

theorem ccMatch_litCI_self (c : Char) : ccMatch (CC.litCI c) c = true := by
  simp [ccMatch]

theorem litsL_cons (c : Char) (u : List Char) :
    litsL (c :: u) = SItem.one (CC.lit c) :: litsL u := rfl

theorem litsCIL_cons (c : Char) (u : List Char) :
    litsCIL (c :: u) = SItem.one (CC.litCI c) :: litsCIL u := rfl

/-- Matching a case-sensitive literal block consumes exactly that block. -/
theorem matchSItems_litsL_append (u : List Char) (rest : List SItem)
    (k : List Char → Option (Nat × Caps)) (s : List Char) :
    matchSItems (litsL u ++ rest) k (u ++ s) =
      addN u.length (matchSItems rest k s) := by
  induction u with
  | nil => simp [litsL, addN_zero]
  | cons c u ih =>
    rw [litsL_cons, List.cons_append, List.cons_append]
    simp only [matchSItems, ccMatch_lit_self, if_true, ih]
    cases h : matchSItems rest k s with
    | none => simp [addN]
    | some r =>
      cases r with
      | mk m gs => simp [addN, Nat.add_assoc]

/-- Matching a case-insensitive literal block consumes exactly that block. -/
theorem matchSItems_litsCIL_append (u : List Char) (rest : List SItem)
    (k : List Char → Option (Nat × Caps)) (s : List Char) :
    matchSItems (litsCIL u ++ rest) k (u ++ s) =
      addN u.length (matchSItems rest k s) := by
  induction u with
  | nil => simp [litsCIL, addN_zero]
  | cons c u ih =>
    rw [litsCIL_cons, List.cons_append, List.cons_append]
    simp only [matchSItems, ccMatch_litCI_self, if_true, ih]
    cases h : matchSItems rest k s with
    | none => simp [addN]
    | some r =>
      cases r with
      | mk m gs => simp [addN, Nat.add_assoc]

/-- A greedy option consumes its character when the tail then succeeds. -/
theorem matchSItems_opt_consume (p : CC) (rest : List SItem)
    (k : List Char → Option (Nat × Caps)) (c : Char) (s : List Char)
    (n : Nat) (gs : Caps) (hc : ccMatch p c = true)
    (h : matchSItems rest k s = some (n, gs)) :
    matchSItems (SItem.opt p :: rest) k (c :: s) = some (n + 1, gs) := by
  simp [matchSItems, hc, h]

/-- A single-character item consumes its character when it matches. -/
theorem matchSItems_one_consume (p : CC) (rest : List SItem)
    (k : List Char → Option (Nat × Caps)) (c : Char) (s : List Char)
    (n : Nat) (gs : Caps) (hc : ccMatch p c = true)
    (h : matchSItems rest k s = some (n, gs)) :
    matchSItems (SItem.one p :: rest) k (c :: s) = some (n + 1, gs) := by
  simp [matchSItems, hc, h]

/-- A star whose characters all match and whose continuation accepts the
empty rest consumes the whole input. -/
theorem matchStarCont_full (p : CC) (k : List Char → Option (Nat × Caps))
    (s : List Char) (m : Nat) (gs : Caps)
    (hall : ∀ c ∈ s, ccMatch p c = true) (hk : k [] = some (m, gs)) :
    matchStarCont p k s = some (s.length + m, gs) := by
  induction s with
  | nil => simpa [matchStarCont] using hk
  | cons c cs ih =>
    have hc : ccMatch p c = true := hall c (List.mem_cons_self c cs)
    have ih2 := ih (fun d hd => hall d (List.mem_cons_of_mem c hd))
    simp only [matchStarCont, hc, if_true, ih2]
    have : cs.length + m + 1 = (c :: cs).length + m := by
      simp [List.length_cons]
      omega
    rw [this]

/-- A star whose continuation always succeeds cannot fail. -/
theorem matchStarCont_isSome (p : CC) (k : List Char → Option (Nat × Caps))
    (s : List Char) (hk : ∀ s2, (k s2).isSome = true) :
    (matchStarCont p k s).isSome = true := by
  induction s with
  | nil => simpa [matchStarCont] using hk []
  | cons c cs ih =>
    by_cases hc : ccMatch p c = true
    · simp only [matchStarCont, hc, if_true]
      obtain ⟨r, hr⟩ := Option.isSome_iff_exists.mp ih
      rw [hr]
      cases r with
      | mk n gs => simp
    · simp only [matchStarCont, hc, if_false]
      exact hk (c :: cs)

/-- A block of `j` copies of a one-character item consumes exactly `j`
matching characters before the continuation runs. -/
theorem matchSItems_replicate_one (p : CC)
    (k : List Char → Option (Nat × Caps)) :
    ∀ (j : Nat) (s : List Char) (n : Nat) (gs : Caps),
      matchSItems (List.replicate j (SItem.one p)) k s = some (n, gs) →
      (∃ m, k (List.drop j s) = some (m, gs) ∧ n = j + m) ∧
      j ≤ s.length ∧ ∀ c ∈ List.take j s, ccMatch p c = true := by
  intro j
  induction j with
  | zero =>
    intro s n gs h
    simp only [List.replicate, matchSItems] at h
    exact ⟨⟨n, by simpa using h, by omega⟩, by omega, by simp⟩
  | succ j ih =>
    intro s n gs h
    rw [List.replicate_succ] at h
    cases s with
    | nil => simp [matchSItems] at h
    | cons c cs =>
      by_cases hc : ccMatch p c = true
      · simp only [matchSItems, hc, if_true] at h
        cases hin : matchSItems (List.replicate j (SItem.one p)) k cs with
        | none => rw [hin] at h; simp at h
        | some r0 =>
          rw [hin] at h
          cases r0 with
          | mk n0 gs0 =>
            simp only [Option.some.injEq, Prod.mk.injEq] at h
            obtain ⟨hn, hgs⟩ := h
            obtain ⟨⟨m, hk, hm⟩, hle, hall⟩ := ih cs n0 gs0 hin
            subst hgs
            refine ⟨⟨m, by simpa [List.drop_succ_cons] using hk, by omega⟩,
              by simp [List.length_cons]; omega, ?_⟩
            intro a ha
            rw [List.take_succ_cons] at ha
            rcases List.mem_cons.mp ha with h1 | h2
            · rw [h1]; exact hc
            · exact hall a h2
      · simp [matchSItems, hc] at h

/-- A successful match somewhere in the tail makes the search succeed. -/
theorem searchAux_append_of_isSome (p : Pattern) (a v : List Char)
    (h : (matchHere p v).isSome = true) : searchAux p (a ++ v) = true := by
  induction a with
  | nil =>
    cases v with
    | nil => simpa [searchAux] using h
    | cons c cs => simp [searchAux, h]
  | cons x xs ih => simp [searchAux, ih]

/-- If a pattern matches nowhere, substitution is the identity. -/
theorem pySubAux_id_of_search_false (p : Pattern)
    (repl : List Char → Caps → List Char) :
    ∀ (fuel : Nat) (s : List Char), s.length ≤ fuel →
      searchAux p s = false → pySubAux p repl fuel s = s := by
  intro fuel
  induction fuel with
  | zero =>
    intro s hle hfalse
    cases s with
    | nil => rfl
    | cons c cs => simp at hle
  | succ fuel ih =>
    intro s hle hfalse
    cases s with
    | nil => rfl
    | cons c cs =>
      simp only [searchAux, Bool.or_eq_false_iff] at hfalse
      obtain ⟨h1, h2⟩ := hfalse
      have hnone : matchHere p (c :: cs) = none := by
        cases h : matchHere p (c :: cs) with
        | none => rfl
        | some r => rw [h] at h1; simp at h1
      have hle2 : cs.length ≤ fuel := by
        simp only [List.length_cons] at hle; omega
      simp only [pySubAux, hnone]
      rw [ih cs hle2 h2]

/-- A match consuming the whole input rewrites it to the replacement. -/
theorem pySubL_full_match (p : Pattern) (repl : List Char → Caps → List Char)
    (s : List Char) (gs : Caps) (hne : s ≠ [])
    (h : matchHere p s = some (s.length, gs)) :
    pySubL p repl s = repl s gs := by
  cases s with
  | nil => exact absurd rfl hne
  | cons c cs =>
    rw [List.length_cons] at h
    show pySubAux p repl (c :: cs).length (c :: cs) = _
    rw [List.length_cons]
    simp only [pySubAux, h]
    rw [if_neg (by omega)]
    simp only [Nat.add_sub_cancel, List.drop_length]
    rw [show List.take (cs.length + 1) (c :: cs) = c :: cs by
      rw [show cs.length + 1 = (c :: cs).length by simp]; exact List.take_length _]
    show repl (c :: cs) gs ++ pySubAux p repl cs.length [] = _
    cases cs.length <;> simp [pySubAux]

/-- Every character a one-character matcher forces is the matched one. -/
theorem reqCharsC_eq (p : CC) (c : Char) (hc : ccMatch p c = true) :
    ∀ a ∈ reqCharsC p, a = c := by
  intro a ha
  cases p with
  | lit b =>
    have hb : c = b := by simpa [ccMatch] using hc
    simp only [reqCharsC, List.mem_singleton] at ha
    rw [ha, hb]
  | litCI b => simp [reqCharsC] at ha
  | digit => simp [reqCharsC] at ha
  | space => simp [reqCharsC] at ha
  | anyc => simp [reqCharsC] at ha
  | upperAZ => simp [reqCharsC] at ha
  | upperAlnumCI => simp [reqCharsC] at ha
  | commaDigit => simp [reqCharsC] at ha

/-- A successful star hands some suffix of its input to the continuation. -/
theorem matchStarCont_suffix (p : CC) (k : List Char → Option (Nat × Caps)) :
    ∀ (s : List Char) (r : Nat × Caps), matchStarCont p k s = some r →
      ∃ s2 r2, List.IsSuffix s2 s ∧ k s2 = some r2 := by
  intro s
  induction s with
  | nil =>
    intro r h
    exact ⟨[], r, List.suffix_refl [], by simpa [matchStarCont] using h⟩
  | cons c cs ih =>
    intro r h
    by_cases hc : ccMatch p c = true
    · simp only [matchStarCont, hc, if_true] at h
      cases hin : matchStarCont p k cs with
      | none =>
        rw [hin] at h
        exact ⟨c :: cs, r, List.suffix_refl _, h⟩
      | some r0 =>
        obtain ⟨s2, r2, hs, hk⟩ := ih r0 hin
        exact ⟨s2, r2, hs.trans (List.suffix_cons c cs), hk⟩
    · simp only [matchStarCont, hc, if_false] at h
      exact ⟨c :: cs, r, List.suffix_refl _, h⟩

/-- A successful item-list match hands some suffix to the continuation and
its input contains every forced literal character. -/
theorem matchSItems_req (its : List SItem) :
    ∀ (k : List Char → Option (Nat × Caps)) (s : List Char) (r : Nat × Caps),
      matchSItems its k s = some r →
      (∃ s2 r2, List.IsSuffix s2 s ∧ k s2 = some r2) ∧
      ∀ c ∈ reqCharsI its, c ∈ s := by
  induction its with
  | nil =>
    intro k s r h
    exact ⟨⟨s, r, List.suffix_refl s, h⟩, by simp [reqCharsI]⟩
  | cons it rest ih =>
    intro k s r h
    cases it with
    | one p =>
      cases s with
      | nil => simp [matchSItems] at h
      | cons c cs =>
        by_cases hc : ccMatch p c = true
        · simp only [matchSItems, hc, if_true] at h
          cases hin : matchSItems rest k cs with
          | none => rw [hin] at h; simp at h
          | some r0 =>
            obtain ⟨⟨s2, r2, hs, hk⟩, hmem⟩ := ih k cs r0 hin
            refine ⟨⟨s2, r2, hs.trans (List.suffix_cons c cs), hk⟩, ?_⟩
            intro a ha
            simp only [reqCharsI] at ha
            rcases List.mem_append.mp ha with h1 | h2
            · rw [reqCharsC_eq p c hc a h1]; exact List.mem_cons_self c cs
            · exact List.mem_cons_of_mem c (hmem a h2)
        · simp [matchSItems, hc] at h
    | opt p =>
      cases s with
      | nil =>
        simp only [matchSItems] at h
        obtain ⟨⟨s2, r2, hs, hk⟩, hmem⟩ := ih k [] r h
        exact ⟨⟨s2, r2, hs, hk⟩,
          fun a ha => hmem a (by simpa [reqCharsI] using ha)⟩
      | cons c cs =>
        by_cases hc : ccMatch p c = true
        · simp only [matchSItems, hc, if_true] at h
          cases hin : matchSItems rest k cs with
          | none =>
            rw [hin] at h
            obtain ⟨⟨s2, r2, hs, hk⟩, hmem⟩ := ih k (c :: cs) r h
            exact ⟨⟨s2, r2, hs, hk⟩,
              fun a ha => hmem a (by simpa [reqCharsI] using ha)⟩
          | some r0 =>
            obtain ⟨⟨s2, r2, hs, hk⟩, hmem⟩ := ih k cs r0 hin
            exact ⟨⟨s2, r2, hs.trans (List.suffix_cons c cs), hk⟩,
              fun a ha =>
                List.mem_cons_of_mem c (hmem a (by simpa [reqCharsI] using ha))⟩
        · simp only [matchSItems, hc, if_false] at h
          obtain ⟨⟨s2, r2, hs, hk⟩, hmem⟩ := ih k (c :: cs) r h
          exact ⟨⟨s2, r2, hs, hk⟩,
            fun a ha => hmem a (by simpa [reqCharsI] using ha)⟩
    | star p =>
      simp only [matchSItems] at h
      obtain ⟨s1, r1, hs1, hk1⟩ := matchStarCont_suffix p _ s r h
      obtain ⟨⟨s2, r2, hs2, hk2⟩, hmem⟩ := ih k s1 r1 hk1
      refine ⟨⟨s2, r2, hs2.trans hs1, hk2⟩, ?_⟩
      intro a ha
      exact hs1.subset (hmem a (by simpa [reqCharsI] using ha))

/-- A successful pattern match contains every forced literal character. -/
theorem matchSegs_req (segs : Pattern) :
    ∀ (k : List Char → Option (Nat × Caps)) (s : List Char) (r : Nat × Caps),
      matchSegs segs k s = some r →
      (∃ s2 r2, List.IsSuffix s2 s ∧ k s2 = some r2) ∧
      ∀ c ∈ reqCharsP segs, c ∈ s := by
  induction segs with
  | nil =>
    intro k s r h
    exact ⟨⟨s, r, List.suffix_refl s, by simpa [matchSegs] using h⟩,
      by simp [reqCharsP]⟩
  | cons sg rest ih =>
    intro k s r h
    cases sg with
    | mk cap its =>
      cases cap with
      | true =>
        simp only [matchSegs, if_true] at h
        obtain ⟨⟨s1, r1, hs1, hk1⟩, hmem⟩ := matchSItems_req its _ s r h
        cases hin : matchSegs rest k s1 with
        | none => rw [hin] at hk1; simp at hk1
        | some r0 =>
          rw [hin] at hk1
          obtain ⟨⟨s2, r2, hs2, hk2⟩, hmem2⟩ := ih k s1 r0 hin
          refine ⟨⟨s2, r2, hs2.trans hs1, hk2⟩, ?_⟩
          intro a ha
          simp only [reqCharsP] at ha
          rcases List.mem_append.mp ha with h1 | h2
          · exact hmem a h1
          · exact hs1.subset (hmem2 a h2)
      | false =>
        simp only [matchSegs, Bool.false_eq_true, if_false] at h
        obtain ⟨⟨s1, r1, hs1, hk1⟩, hmem⟩ := matchSItems_req its _ s r h
        obtain ⟨⟨s2, r2, hs2, hk2⟩, hmem2⟩ := ih k s1 r1 hk1
        refine ⟨⟨s2, r2, hs2.trans hs1, hk2⟩, ?_⟩
        intro a ha
        simp only [reqCharsP] at ha
        rcases List.mem_append.mp ha with h1 | h2
        · exact hmem a h1
        · exact hs1.subset (hmem2 a h2)

/-- A pattern forcing a character the text lacks never matches. -/
theorem searchAux_false_of_missing (p : Pattern) (c0 : Char)
    (hc : c0 ∈ reqCharsP p) :
    ∀ s : List Char, c0 ∉ s → searchAux p s = false := by
  intro s
  induction s with
  | nil =>
    intro hns
    simp only [searchAux]
    cases h : matchHere p [] with
    | none => rfl
    | some r =>
      obtain ⟨_, hmem⟩ :=
        matchSegs_req p (fun _ => some (0, [])) [] r (by simpa [matchHere] using h)
      exact absurd (hmem c0 hc) (by simp)
  | cons c cs ih =>
    intro hns
    simp only [searchAux]
    have h1 : (matchHere p (c :: cs)).isSome = false := by
      cases h : matchHere p (c :: cs) with
      | none => rfl
      | some r =>
        obtain ⟨_, hmem⟩ :=
          matchSegs_req p (fun _ => some (0, [])) (c :: cs) r
            (by simpa [matchHere] using h)
        exact absurd (hmem c0 hc) hns
    rw [h1, ih (fun hm => hns (List.mem_cons_of_mem c hm))]
    rfl

/-- A rule whose pattern forces a character the text lacks is a no-op. -/
theorem aplicarRegra_id_of_missing (r : Regra) (c0 : Char) (s : List Char)
    (hc : c0 ∈ reqCharsP r.1) (hs : c0 ∉ s) :
    aplicarRegra r s = s :=
  pySubAux_id_of_search_false r.1 r.2 s.length s (Nat.le_refl _)
    (searchAux_false_of_missing r.1 c0 hc s hs)

/-- The text component of the result is the joined page text, in both the
success and the missing-fields branch. -/
theorem montarResultado_snd (ts : List String) :
    (montarResultado ts).2 = pyJoin "\n" ts := by
  by_cases h : (validar_campos (pyJoin "\n" ts)).isEmpty
  · simp [montarResultado, h]
  · simp [montarResultado, h]

/-- The status component is decided by one run of the validator on the
joined page text. -/
theorem montarResultado_fst (ts : List String) :
    (montarResultado ts).1 =
      if (validar_campos (pyJoin "\n" ts)).isEmpty then "Sucesso"
      else "ERRO: Campos faltantes - " ++
           pyJoin ", " (validar_campos (pyJoin "\n" ts)) := by
  by_cases h : (validar_campos (pyJoin "\n" ts)).isEmpty
  · simp [montarResultado, h]
  · simp [montarResultado, h]

/-- A run of error-free pages reaches `montarResultado` with the processed
pages appended, in order, after the accumulator. -/
theorem processarPaginas_ok (ps : List (String × String)) :
    ∀ acc : List String,
      processarPaginas (ps.map Except.ok) acc =
        montarResultado (acc.reverse ++ ps.map (fun p => processPage p.1 p.2)) := by
  induction ps with
  | nil =>
    intro acc
    simp [processarPaginas]
  | cons p ps ih =>
    intro acc
    simp only [List.map_cons, processarPaginas]
    rw [ih (processPage p.1 p.2 :: acc)]
    simp [List.reverse_cons, List.append_assoc]

/-- An error page aborts the loop with the failure pair, whatever came
before or after. -/
theorem processarPaginas_error (e : String)
    (rest : List (Except String (String × String))) :
    ∀ (okps : List (String × String)) (acc : List String),
      processarPaginas (okps.map Except.ok ++ Except.error e :: rest) acc =
        ("ERRO: " ++ e, "") := by
  intro okps
  induction okps with
  | nil => intro acc; rfl
  | cons p ps ih =>
    intro acc
    simp only [List.map_cons, List.cons_append, processarPaginas]
    exact ih _

/-- Splitting on a separator that never occurs keeps the string whole. -/
theorem pySplitAux_no_occur (o : Char) (os : List Char) :
    ∀ (fuel : Nat) (s acc : List Char), s.length ≤ fuel →
      containsL (o :: os) s = false →
      pySplitAux o os fuel s acc = [acc.reverse ++ s] := by
  intro fuel
  induction fuel with
  | zero =>
    intro s acc hle hno
    cases s with
    | nil => simp [pySplitAux]
    | cons c cs => simp at hle
  | succ fuel ih =>
    intro s acc hle hno
    cases s with
    | nil => simp [pySplitAux]
    | cons c cs =>
      simp only [containsL, Bool.or_eq_false_iff] at hno
      obtain ⟨h1, h2⟩ := hno
      have hle2 : cs.length ≤ fuel := by
        simp only [List.length_cons] at hle; omega
      simp only [pySplitAux, h1, if_false]
      rw [ih cs (c :: acc) hle2 h2]
      simp

/-- C1 (counterexample).  The claim predicts that merging primary
"Total R$ XXXX" with secondary "garbage R$ 750,00" yields exactly
"Total R$ 750,00"; the code does not: `str.replace` consumes the marker
and keeps the stale primary value. -/
theorem c1_merge_counterexample :
    mergeStep "Total R$ XXXX" "garbage R$ 750,00" ≠ "Total R$ 750,00" := by
  decide

/-- C1 (amended).  The merge step replaces every occurrence of "R$" in the
primary text by the tail of the secondary text after its last "R$" (here
" 750,00", leading space included), so the marker is consumed and the stale
"XXXX" remains: the result is "Total  750,00 XXXX". -/
theorem c1_merge_amended :
    mergeStep "Total R$ XXXX" "garbage R$ 750,00" = "Total  750,00 XXXX" := by
  decide

/-- C2 (counterexample).  `estruturar_texto` is not idempotent: on a text
containing a section header, the second application differs from the
first. -/
theorem c2_estruturar_counterexample :
    estruturar_texto (estruturar_texto "PRESTADOR DE SERVIÇOS") ≠
      estruturar_texto "PRESTADOR DE SERVIÇOS" := by
  decide

/-- C2 (amended).  `estruturar_texto` is deterministic but not idempotent:
a section header still present in the once-structured text is matched
again, so the second application inserts the blank lines and another
separator line. -/
theorem c2_estruturar_amended :
    estruturar_texto "PRESTADOR DE SERVIÇOS" =
      "\n\nPRESTADOR DE SERVIÇOS\n------------------------------" ∧
    estruturar_texto (estruturar_texto "PRESTADOR DE SERVIÇOS") =
      "\n\n\n\nPRESTADOR DE SERVIÇOS\n------------------------------\n------------------------------" :=
  ⟨by decide, by decide⟩

/-- C3 (counterexample).  The orchestrator joins the per-page structured
texts with a single newline, not with a blank-line separator: with pages
whose structured texts are "a" and "b" the assembled text is "a\nb",
whereas a blank-line separator would give "a\n\nb". -/
theorem c3_join_counterexample :
    (processar_nfse [Except.ok ("a", ""), Except.ok ("b", "")]).2 = "a\nb" ∧
    processPage "a" "" = "a" ∧ processPage "b" "" = "b" ∧
    ("a\nb" : String) ≠ "a\n\nb" :=
  ⟨by decide, by decide, by decide, by decide⟩

/-- C3 (amended).  For every multi-page run the orchestrator concatenates
the per-page structured texts in original page order with `"\n".join` (one
page = one append, exactly one newline character between consecutive pages,
not a blank line), and the status is decided by one run of the Field
Validator on that full concatenation.  The last conjunct pins the join
semantics: prepending a page prepends its text followed by one newline. -/
theorem c3_join_amended (ps : List (String × String)) :
    (processar_nfse (ps.map Except.ok)).2 =
      pyJoin "\n" (ps.map (fun p => processPage p.1 p.2)) ∧
    (processar_nfse (ps.map Except.ok)).1 =
      (if (validar_campos ((processar_nfse (ps.map Except.ok)).2)).isEmpty
       then "Sucesso"
       else "ERRO: Campos faltantes - " ++
            pyJoin ", " (validar_campos ((processar_nfse (ps.map Except.ok)).2))) ∧
    ∀ (t : String) (ts : List String), ts ≠ [] →
      pyJoin "\n" (t :: ts) = t ++ "\n" ++ pyJoin "\n" ts := by
  have hrun : processar_nfse (ps.map Except.ok) =
      montarResultado (ps.map (fun p => processPage p.1 p.2)) := by
    have h := processarPaginas_ok ps []
    simpa [processar_nfse] using h
  refine ⟨?_, ?_, ?_⟩
  · rw [hrun, montarResultado_snd]
  · rw [hrun, montarResultado_fst, montarResultado_snd]
  · intro t ts h
    cases ts with
    | nil => exact absurd rfl h
    | cons u us => rfl

/-- C4 (counterexample).  When a component raises on page 2, the result
carries the message but its text component is the empty string: the partial
text "a" produced by page 1 is not returned. -/
theorem c4_error_counterexample :
    processar_nfse [Except.ok ("a", ""), Except.error "boom"] =
      ("ERRO: boom", "") ∧
    processPage "a" "" = "a" ∧ containsStr "" "a" = false :=
  ⟨by decide, by decide, by decide⟩

/-- C4 (amended).  Whenever any component raises during a run,
`processar_nfse` returns the failure status `"ERRO: " ++ message` paired
with the empty string: the partial text of the pages processed before the
error is discarded, not returned. -/
theorem c4_error_amended (okps : List (String × String)) (e : String)
    (rest : List (Except String (String × String))) :
    processar_nfse (okps.map Except.ok ++ Except.error e :: rest) =
      ("ERRO: " ++ e, "") :=
  processarPaginas_error e rest okps []

/-- C5 (counterexample).  With a secondary text containing no marker, the
merge does not keep the marker in place: "a R$ b" merged with "xyz" gives
"a xyz b", and no "R$" remains in the output. -/
theorem c5_merge_fallback_counterexample :
    mergeStep "a R$ b" "xyz" = "a xyz b" ∧
    containsStr (mergeStep "a R$ b" "xyz") "R$" = false :=
  ⟨by decide, by decide⟩

/-- C5 (amended).  For every primary text and every secondary text without
the marker, the merge step equals replacing every occurrence of "R$" in the
primary text by the whole secondary text: the marker is consumed, not kept
with the secondary appended after it. -/
theorem c5_merge_fallback_amended (p s : String)
    (h : containsStr s "R$" = false) :
    mergeStep p s = replaceAll p "R$" s := by
  have h3 : pySplitL "R$".data s.data = [s.data] := by
    show pySplitAux 'R' ['$'] s.data.length s.data [] = [s.data]
    rw [pySplitAux_no_occur 'R' ['$'] s.data.length s.data [] (Nat.le_refl _)
      (by simpa [containsStr] using h)]
    simp
  show (⟨pyReplaceL "R$".data
      (List.getLastD (pySplitL "R$".data s.data) []) p.data⟩ : String) = _
  rw [h3]
  rfl

/-- C5 (witness). -/
theorem c5_merge_fallback_witness :
    containsStr "750,00" "R$" = false ∧
    mergeStep "Total R$ 100" "750,00" =
      replaceAll "Total R$ 100" "R$" "750,00" :=
  ⟨by decide, c5_merge_fallback_amended "Total R$ 100" "750,00" (by decide)⟩

/-- C8.  Rule ordering matters: on input "75000" the literal rule
`75000 -> 750,00` followed by the value-format rule yields "750,00", while
the reverse order yields "750.00". -/
theorem c8_rule_ordering :
    ∃ s : String,
      aplicarRegraStr regraFormatoValores (aplicarRegraStr regraLiteral75000 s) ≠
      aplicarRegraStr regraLiteral75000 (aplicarRegraStr regraFormatoValores s) :=
  ⟨"75000", by decide⟩

/-- C10 (counterexample).  The claim is not universal: when the value after
the label itself contains a section header, the header rule fires first and
breaks the line, so part of the value survives structuring. -/
theorem c10_value_deleted_counterexample :
    containsStr (estruturar_texto "Data e Hora de Emissão: PRESTADOR DE SERVIÇOS")
      "PRESTADOR DE SERVIÇOS" = true ∧
    estruturar_texto "Data e Hora de Emissão: PRESTADOR DE SERVIÇOS" ≠
      "\nData e Hora de Emissão: " :=
  ⟨by decide, by decide⟩

/-- C7.  For every text on which some pattern of the document-type field
and some pattern of the provider field match, while neither total-value
pattern matches, the validator reports exactly ["Valor Total"]. -/
theorem c7_validation_absence (t : String)
    (h1 : searchB patNFSe1 t = true ∨ searchB patNFSe2 t = true)
    (h2 : searchB patCNPJ1 t = true ∨ searchB patCNPJ2 t = true)
    (hv1 : searchB patValor1 t = false) (hv2 : searchB patValor2 t = false) :
    validar_campos t = ["Valor Total"] := by
  have e1 : ([patNFSe1, patNFSe2].any (fun p => searchB p t)) = true := by
    rcases h1 with h | h <;> simp [h]
  have e2 : ([patCNPJ1, patCNPJ2].any (fun p => searchB p t)) = true := by
    rcases h2 with h | h <;> simp [h]
  have e3 : ([patValor1, patValor2].any (fun p => searchB p t)) = false := by
    simp [hv1, hv2]
  simp [validar_campos, camposRequeridos, List.filter, e1, e2, e3]

/-- C7 (witness). -/
theorem c7_validation_absence_witness :
    validar_campos "NFS-e Sustentamais Consultoria" = ["Valor Total"] :=
  c7_validation_absence "NFS-e Sustentamais Consultoria"
    (Or.inl (by decide)) (Or.inr (by decide)) (by decide) (by decide)

/-- Every match of the eight-character class rule consumes exactly eight
characters of the class and captures nothing. -/
theorem regraCodigoOito_matchHere (s : List Char) (n : Nat) (gs : Caps)
    (h : matchHere regraCodigoOito.1 s = some (n, gs)) :
    n = 8 ∧ gs = [] ∧ ∀ c ∈ List.take 8 s, ccMatch CC.upperAlnumCI c = true := by
  have h2 : matchSItems (List.replicate 8 (SItem.one CC.upperAlnumCI))
      (fun s2 => matchSegs [] (fun _ => some (0, ([] : Caps))) s2) s =
      some (n, gs) := by
    simpa [matchHere, matchSegs, regraCodigoOito] using h
  obtain ⟨⟨m, hk, hm⟩, hle, hall⟩ :=
    matchSItems_replicate_one CC.upperAlnumCI _ 8 s n gs h2
  simp only [matchSegs, Option.some.injEq, Prod.mk.injEq] at hk
  obtain ⟨hm0, hgs⟩ := hk
  exact ⟨by omega, hgs.symm, hall⟩

/-- The eight-character class rule never changes its input. -/
theorem pySubCodigoOito_id :
    ∀ (fuel : Nat) (s : List Char), s.length ≤ fuel →
      pySubAux regraCodigoOito.1 regraCodigoOito.2 fuel s = s := by
  intro fuel
  induction fuel with
  | zero =>
    intro s hle
    cases s with
    | nil => rfl
    | cons c cs => simp at hle
  | succ fuel ih =>
    intro s hle
    cases s with
    | nil => rfl
    | cons c cs =>
      have hle2 : cs.length ≤ fuel := by
        simp only [List.length_cons] at hle; omega
      cases h : matchHere regraCodigoOito.1 (c :: cs) with
      | none =>
        simp only [pySubAux, h]
        rw [ih cs hle2]
      | some r =>
        cases r with
        | mk n gs =>
          obtain ⟨hn, hgs, hall⟩ := regraCodigoOito_matchHere (c :: cs) n gs h
          subst hn
          subst hgs
          simp only [pySubAux, h]
          rw [if_neg (by omega)]
          have hstrip : regraCodigoOito.2 (List.take 8 (c :: cs)) [] =
              List.take 8 (c :: cs) := by
            show List.filter (fun a => a != ' ') (List.take 8 (c :: cs)) = _
            rw [List.filter_eq_self.mpr]
            intro a ha
            by_cases hsp : a = ' '
            · subst hsp
              exact absurd (hall _ ha) (by decide)
            · simp only [bne_iff_ne, ne_eq]
              exact hsp
          rw [hstrip]
          have hd : List.drop (8 - 1) cs = List.drop 8 (c :: cs) := rfl
          rw [hd, ih (List.drop 8 (c :: cs)) (by simp [List.length_drop]; omega)]
          exact List.take_append_drop 8 (c :: cs)

/-- C9.  The whitespace-stripping verification-code rule is an identity:
every match of the case-insensitive class `[A-Z0-9]{8}` consists of eight
class characters, which can never include a space, so replacing the match
by itself with spaces removed reproduces it and the substitution never
changes any text; the whitespace-removal transform is unreachable. -/
theorem c9_strip_rule_identity (t : String) :
    aplicarRegraStr regraCodigoOito t = t := by
  show (⟨pySubAux regraCodigoOito.1 regraCodigoOito.2 t.data.length t.data⟩ :
    String) = t
  rw [pySubCodigoOito_id t.data.length t.data (Nat.le_refl _)]

theorem isPrefixL_decomp :
    ∀ (u s : List Char), isPrefixL u s = true → ∃ b, s = u ++ b := by
  intro u
  induction u with
  | nil => intro s _; exact ⟨s, rfl⟩
  | cons c cu ih =>
    intro s h
    cases s with
    | nil => simp [isPrefixL] at h
    | cons d ds =>
      simp only [isPrefixL, Bool.and_eq_true, beq_iff_eq] at h
      obtain ⟨h1, h2⟩ := h
      obtain ⟨b, hb⟩ := ih ds h2
      exact ⟨b, by rw [hb, h1]; rfl⟩

/-- A substring occurrence splits the text around the needle. -/
theorem containsL_decomp (u : List Char) :
    ∀ s : List Char, containsL u s = true → ∃ a b, s = a ++ (u ++ b) := by
  intro s
  induction s with
  | nil =>
    intro h
    simp only [containsL] at h
    obtain ⟨b, hb⟩ := isPrefixL_decomp u [] h
    exact ⟨[], b, by simpa using hb⟩
  | cons c cs ih =>
    intro h
    simp only [containsL, Bool.or_eq_true] at h
    rcases h with h | h
    · obtain ⟨b, hb⟩ := isPrefixL_decomp u (c :: cs) h
      exact ⟨[], b, by simpa using hb⟩
    · obtain ⟨a, b, hab⟩ := ih h
      exact ⟨c :: a, b, by rw [List.cons_append, hab]⟩

theorem addN_isSome (n : Nat) (x : Option (Nat × Caps)) :
    (addN n x).isSome = x.isSome := by
  cases x with
  | none => rfl
  | some r => cases r with
    | mk m gs => rfl

/-- A bare literal block followed by nothing consumes the block and hands
the rest to the continuation. -/
theorem matchSItems_litsCIL_only (u : List Char)
    (k : List Char → Option (Nat × Caps)) (s : List Char) :
    matchSItems (litsCIL u) k (u ++ s) = addN u.length (k s) := by
  have h := matchSItems_litsCIL_append u [] k s
  simpa [matchSItems] using h

/-- The pattern `NFS-?e` matches at the front of any text beginning with
the literal "NFS-e". -/
theorem matchSItems_isSome_nfse1 (k : List Char → Option (Nat × Caps))
    (hk : ∀ s2, ∃ rk, k s2 = some rk) (b : List Char) :
    (matchSItems
      (litsCIL "NFS".data ++ [SItem.opt (CC.lit '-')] ++ litsCIL "e".data)
      k ("NFS-e".data ++ b)).isSome = true := by
  obtain ⟨⟨nk, gk⟩, hkb⟩ := hk b
  have he : matchSItems (litsCIL "e".data) k ('e' :: b) = some (nk + 1, gk) :=
    matchSItems_one_consume (CC.litCI 'e') [] k 'e' b nk gk
      (ccMatch_litCI_self 'e') hkb
  have hopt : matchSItems (SItem.opt (CC.lit '-') :: litsCIL "e".data) k
      ('-' :: 'e' :: b) = some (nk + 1 + 1, gk) :=
    matchSItems_opt_consume (CC.lit '-') (litsCIL "e".data) k '-' ('e' :: b)
      (nk + 1) gk (ccMatch_lit_self '-') he
  rw [show ("NFS-e".data ++ b : List Char) = "NFS".data ++ ('-' :: 'e' :: b)
    from rfl]
  rw [show (litsCIL "NFS".data ++ [SItem.opt (CC.lit '-')] ++ litsCIL "e".data :
      List SItem) = litsCIL "NFS".data ++ (SItem.opt (CC.lit '-') :: litsCIL "e".data)
    from by simp]
  rw [matchSItems_litsCIL_append, hopt]
  rfl

/-- The CNPJ pattern matches at the front of any text beginning with the
fully punctuated identifier. -/
theorem matchSItems_isSome_cnpj1 (k : List Char → Option (Nat × Caps))
    (hk : ∀ s2, ∃ rk, k s2 = some rk) (b : List Char) :
    (matchSItems
      (litsCIL "49".data ++ [SItem.opt (CC.lit '.')] ++ litsCIL "621".data ++
       [SItem.opt (CC.lit '.')] ++ litsCIL "411/0001".data ++
       [SItem.opt (CC.lit '-')] ++ litsCIL "93".data)
      k ("49.621.411/0001-93".data ++ b)).isSome = true := by
  obtain ⟨⟨nk, gk⟩, hkb⟩ := hk b
  have h93 : matchSItems (litsCIL "93".data) k ("93".data ++ b) =
      some (nk + 2, gk) := by
    rw [matchSItems_litsCIL_only, hkb]
    rfl
  have hopt3 : matchSItems (SItem.opt (CC.lit '-') :: litsCIL "93".data) k
      ('-' :: ("93".data ++ b)) = some (nk + 2 + 1, gk) :=
    matchSItems_opt_consume (CC.lit '-') (litsCIL "93".data) k '-'
      ("93".data ++ b) (nk + 2) gk (ccMatch_lit_self '-') h93
  have h411 : matchSItems
      (litsCIL "411/0001".data ++ (SItem.opt (CC.lit '-') :: litsCIL "93".data)) k
      ("411/0001".data ++ ('-' :: ("93".data ++ b))) =
      some (nk + 2 + 1 + 8, gk) := by
    rw [matchSItems_litsCIL_append, hopt3]
    rfl
  have hopt2 : matchSItems (SItem.opt (CC.lit '.') ::
      (litsCIL "411/0001".data ++ (SItem.opt (CC.lit '-') :: litsCIL "93".data))) k
      ('.' :: ("411/0001".data ++ ('-' :: ("93".data ++ b)))) =
      some (nk + 2 + 1 + 8 + 1, gk) :=
    matchSItems_opt_consume (CC.lit '.') _ k '.' _ (nk + 2 + 1 + 8) gk
      (ccMatch_lit_self '.') h411
  have h621 : matchSItems (litsCIL "621".data ++ (SItem.opt (CC.lit '.') ::
      (litsCIL "411/0001".data ++ (SItem.opt (CC.lit '-') :: litsCIL "93".data)))) k
      ("621".data ++ ('.' :: ("411/0001".data ++ ('-' :: ("93".data ++ b))))) =
      some (nk + 2 + 1 + 8 + 1 + 3, gk) := by
    rw [matchSItems_litsCIL_append, hopt2]
    rfl
  have hopt1 : matchSItems (SItem.opt (CC.lit '.') ::
      (litsCIL "621".data ++ (SItem.opt (CC.lit '.') ::
        (litsCIL "411/0001".data ++ (SItem.opt (CC.lit '-') :: litsCIL "93".data))))) k
      ('.' :: ("621".data ++ ('.' :: ("411/0001".data ++
        ('-' :: ("93".data ++ b)))))) =
      some (nk + 2 + 1 + 8 + 1 + 3 + 1, gk) :=
    matchSItems_opt_consume (CC.lit '.') _ k '.' _ (nk + 2 + 1 + 8 + 1 + 3) gk
      (ccMatch_lit_self '.') h621
  rw [show ("49.621.411/0001-93".data ++ b : List Char) =
      "49".data ++ ('.' :: ("621".data ++ ('.' :: ("411/0001".data ++
        ('-' :: ("93".data ++ b)))))) from rfl]
  rw [show (litsCIL "49".data ++ [SItem.opt (CC.lit '.')] ++ litsCIL "621".data ++
       [SItem.opt (CC.lit '.')] ++ litsCIL "411/0001".data ++
       [SItem.opt (CC.lit '-')] ++ litsCIL "93".data : List SItem) =
      litsCIL "49".data ++ (SItem.opt (CC.lit '.') ::
      (litsCIL "621".data ++ (SItem.opt (CC.lit '.') ::
        (litsCIL "411/0001".data ++ (SItem.opt (CC.lit '-') :: litsCIL "93".data)))))
    from by simp]
  rw [matchSItems_litsCIL_append, hopt1]
  rfl

/-- The total-value pattern matches at the front of any text beginning
with "R$ 750,00". -/
theorem matchSItems_isSome_valor1 (k : List Char → Option (Nat × Caps))
    (hk : ∀ s2, ∃ rk, k s2 = some rk) (b : List Char) :
    (matchSItems
      ([SItem.one (CC.litCI 'R'), SItem.one (CC.lit '$'), SItem.star CC.space] ++
       litsCIL "750".data ++ [SItem.star CC.commaDigit])
      k ("R$ 750,00".data ++ b)).isSome = true := by
  have hstar2 : ∀ s2 : List Char,
      (matchSItems [SItem.star CC.commaDigit] k s2).isSome = true := by
    intro s2
    show (matchStarCont CC.commaDigit (fun sx => matchSItems [] k sx) s2).isSome = true
    apply matchStarCont_isSome
    intro s3
    obtain ⟨rk, hrk⟩ := hk s3
    show (k s3).isSome = true
    rw [hrk]
    rfl
  have h750 : (matchSItems (litsCIL "750".data ++ [SItem.star CC.commaDigit]) k
      ('7' :: '5' :: '0' :: ',' :: '0' :: '0' :: b)).isSome = true := by
    rw [show ('7' :: '5' :: '0' :: ',' :: '0' :: '0' :: b : List Char) =
        "750".data ++ (',' :: '0' :: '0' :: b) from rfl]
    rw [matchSItems_litsCIL_append, addN_isSome]
    exact hstar2 _
  obtain ⟨⟨n0, g0⟩, h750v⟩ :=
    Option.isSome_iff_exists.mp h750
  have hspace : (matchSItems (SItem.star CC.space ::
      (litsCIL "750".data ++ [SItem.star CC.commaDigit])) k
      (' ' :: '7' :: '5' :: '0' :: ',' :: '0' :: '0' :: b)).isSome = true := by
    show (matchStarCont CC.space
      (fun sx => matchSItems (litsCIL "750".data ++ [SItem.star CC.commaDigit]) k sx)
      (' ' :: '7' :: '5' :: '0' :: ',' :: '0' :: '0' :: b)).isSome = true
    simp only [matchStarCont]
    rw [show ccMatch CC.space ' ' = true from rfl]
    rw [show ccMatch CC.space '7' = false from rfl]
    simp only [if_true, if_false, h750v]
    rfl
  obtain ⟨⟨n1, g1⟩, hspacev⟩ := Option.isSome_iff_exists.mp hspace
  have hdollar : matchSItems (SItem.one (CC.lit '$') :: (SItem.star CC.space ::
      (litsCIL "750".data ++ [SItem.star CC.commaDigit]))) k
      ('$' :: ' ' :: '7' :: '5' :: '0' :: ',' :: '0' :: '0' :: b) =
      some (n1 + 1, g1) :=
    matchSItems_one_consume (CC.lit '$') _ k '$' _ n1 g1
      (ccMatch_lit_self '$') hspacev
  have hr : matchSItems (SItem.one (CC.litCI 'R') :: (SItem.one (CC.lit '$') ::
      (SItem.star CC.space ::
        (litsCIL "750".data ++ [SItem.star CC.commaDigit])))) k
      ('R' :: '$' :: ' ' :: '7' :: '5' :: '0' :: ',' :: '0' :: '0' :: b) =
      some (n1 + 1 + 1, g1) :=
    matchSItems_one_consume (CC.litCI 'R') _ k 'R' _ (n1 + 1) g1
      (ccMatch_litCI_self 'R') hdollar
  rw [show ("R$ 750,00".data ++ b : List Char) =
      'R' :: '$' :: ' ' :: '7' :: '5' :: '0' :: ',' :: '0' :: '0' :: b from rfl]
  rw [show ([SItem.one (CC.litCI 'R'), SItem.one (CC.lit '$'), SItem.star CC.space] ++
       litsCIL "750".data ++ [SItem.star CC.commaDigit] : List SItem) =
      SItem.one (CC.litCI 'R') :: (SItem.one (CC.lit '$') :: (SItem.star CC.space ::
        (litsCIL "750".data ++ [SItem.star CC.commaDigit]))) from by simp]
  rw [hr]
  rfl

/-- A case-insensitive literal pattern matches wherever its text occurs. -/
theorem searchB_plitCI_of_contains (u t : String)
    (h : containsStr t u = true) : searchB (plitCI u) t = true := by
  obtain ⟨a, b, hab⟩ := containsL_decomp u.data t.data h
  show searchAux (plitCI u) t.data = true
  rw [hab]
  apply searchAux_append_of_isSome
  show (matchSItems (litsCIL u.data)
    (fun s2 => matchSegs [] (fun _ => some (0, [])) s2) (u.data ++ b)).isSome = true
  rw [matchSItems_litsCIL_only, addN_isSome]
  rfl

theorem searchB_nfse1_of_contains (t : String)
    (h : containsStr t "NFS-e" = true) : searchB patNFSe1 t = true := by
  obtain ⟨a, b, hab⟩ := containsL_decomp "NFS-e".data t.data h
  show searchAux patNFSe1 t.data = true
  rw [hab]
  apply searchAux_append_of_isSome
  exact matchSItems_isSome_nfse1 _ (fun s2 => ⟨(0, []), rfl⟩) b

theorem searchB_cnpj1_of_contains (t : String)
    (h : containsStr t "49.621.411/0001-93" = true) :
    searchB patCNPJ1 t = true := by
  obtain ⟨a, b, hab⟩ := containsL_decomp "49.621.411/0001-93".data t.data h
  show searchAux patCNPJ1 t.data = true
  rw [hab]
  apply searchAux_append_of_isSome
  exact matchSItems_isSome_cnpj1 _ (fun s2 => ⟨(0, []), rfl⟩) b

theorem searchB_valor1_of_contains (t : String)
    (h : containsStr t "R$ 750,00" = true) : searchB patValor1 t = true := by
  obtain ⟨a, b, hab⟩ := containsL_decomp "R$ 750,00".data t.data h
  show searchAux patValor1 t.data = true
  rw [hab]
  apply searchAux_append_of_isSome
  exact matchSItems_isSome_valor1 _ (fun s2 => ⟨(0, []), rfl⟩) b

/-- C6.  For every text containing a document-type marker (the literal
"NFS-e" or the long form), a provider-identifier pattern (the punctuated
CNPJ or the provider name) and a total-value occurrence "R$ 750,00",
`validar_campos` returns the empty missing-fields list. -/
theorem c6_validation_completeness (t : String)
    (h1 : containsStr t "NFS-e" = true ∨
          containsStr t "NOTA FISCAL DE SERVIÇOS ELETRÔNICA" = true)
    (h2 : containsStr t "49.621.411/0001-93" = true ∨
          containsStr t "Sustentamais Consultoria" = true)
    (h3 : containsStr t "R$ 750,00" = true) :
    validar_campos t = [] := by
  have e1 : ([patNFSe1, patNFSe2].any (fun p => searchB p t)) = true := by
    rcases h1 with h | h
    · simp [searchB_nfse1_of_contains t h]
    · simp [searchB_plitCI_of_contains "NOTA FISCAL DE SERVIÇOS ELETRÔNICA" t h,
        patNFSe2]
  have e2 : ([patCNPJ1, patCNPJ2].any (fun p => searchB p t)) = true := by
    rcases h2 with h | h
    · simp [searchB_cnpj1_of_contains t h]
    · simp [searchB_plitCI_of_contains "Sustentamais Consultoria" t h, patCNPJ2]
  have e3 : ([patValor1, patValor2].any (fun p => searchB p t)) = true := by
    simp [searchB_valor1_of_contains t h3]
  simp [validar_campos, camposRequeridos, List.filter, e1, e2, e3]

/-- C6 (witness). -/
theorem c6_validation_completeness_witness :
    validar_campos "NFS-e Sustentamais Consultoria R$ 750,00" = [] :=
  c6_validation_completeness "NFS-e Sustentamais Consultoria R$ 750,00"
    (Or.inl (by decide)) (Or.inr (by decide)) (by decide)

theorem matchSegs_cons_cap (its : List SItem) (rest : Pattern)
    (k : List Char → Option (Nat × Caps)) (s : List Char) :
    matchSegs ((true, its) :: rest) k s =
      matchSItems its
        (fun s2 =>
          match matchSegs rest k s2 with
          | some (m, gs) => some (m, List.take (s.length - s2.length) s :: gs)
          | none => none) s := rfl

theorem matchSItems_star_cons (p : CC) (rest : List SItem)
    (k : List Char → Option (Nat × Caps)) (s : List Char) :
    matchSItems (SItem.star p :: rest) k s =
      matchStarCont p (fun sx => matchSItems rest k sx) s := rfl

theorem anyc_of_valorDataOk (c : Char) (h : valorDataOk c = true) :
    ccMatch CC.anyc c = true := by
  by_cases hc : c = '\n'
  · subst hc
    exact absurd h (by decide)
  · simp [ccMatch, hc]

theorem anyc_of_valorCodigoOk (c : Char) (h : valorCodigoOk c = true) :
    ccMatch CC.anyc c = true := by
  by_cases hc : c = '\n'
  · subst hc
    exact absurd h (by decide)
  · simp [ccMatch, hc]

/-- The rest-of-line group `(.*)` captures the whole remaining line. -/
theorem matchSegs_restOfLine (w : List Char)
    (hw : ∀ c ∈ w, ccMatch CC.anyc c = true) :
    matchSegs [(true, [SItem.star CC.anyc])] (fun _ => some (0, [])) w =
      some (w.length, [w]) := by
  rw [matchSegs_cons_cap, matchSItems_star_cons]
  rw [matchStarCont_full CC.anyc _ w 0 [List.take (w.length - 0) w] hw rfl]
  simp

/-- The label rules of lines 88 and 89: on a text that is the label, a
colon and a line of ordinary characters, the pattern consumes everything,
capturing the label with its colon and the rest of the line. -/
theorem matchHere_labelRule (u w : List Char)
    (hw : ∀ c ∈ w, ccMatch CC.anyc c = true) :
    matchHere [(true, litsL u ++ [SItem.opt (CC.lit ':')]),
               (true, [SItem.star CC.anyc])] (u ++ (':' :: w)) =
      some ((u ++ (':' :: w)).length, [u ++ [':'], w]) := by
  have hlen : (u ++ (':' :: w)).length - w.length = u.length + 1 := by
    simp only [List.length_append, List.length_cons]
    omega
  have htake : List.take (u.length + 1) (u ++ (':' :: w)) = u ++ [':'] := by
    rw [List.take_append_eq_append_take]
    rw [List.take_of_length_le (by omega)]
    rw [show u.length + 1 - u.length = 1 by omega]
    rfl
  show matchSegs [(true, litsL u ++ [SItem.opt (CC.lit ':')]),
      (true, [SItem.star CC.anyc])] (fun _ => some (0, [])) (u ++ (':' :: w)) = _
  rw [matchSegs_cons_cap]
  rw [show (litsL u ++ [SItem.opt (CC.lit ':')] : List SItem) =
      litsL u ++ (SItem.opt (CC.lit ':') :: []) from rfl]
  rw [matchSItems_litsL_append]
  simp only [matchSItems, ccMatch_lit_self, if_true]
  rw [matchSegs_restOfLine w hw]
  simp only [hlen, htake, addN]
  rw [show (u ++ (':' :: w)).length = w.length + 1 + u.length by simp; omega]

/-- Applying a label rule to a bare label line rewrites the whole line. -/
theorem aplicarRegra_labelRule (u w : List Char)
    (tm : List Char → Caps → List Char)
    (hw : ∀ c ∈ w, ccMatch CC.anyc c = true) :
    aplicarRegra ([(true, litsL u ++ [SItem.opt (CC.lit ':')]),
                   (true, [SItem.star CC.anyc])], tm) (u ++ (':' :: w)) =
      tm (u ++ (':' :: w)) [u ++ [':'], w] :=
  pySubL_full_match _ tm (u ++ (':' :: w)) [u ++ [':'], w]
    (by simp) (matchHere_labelRule u w hw)

theorem aplicarRegras_cons (r : Regra) (rs : List Regra) (s : List Char) :
    aplicarRegras (r :: rs) s = aplicarRegras rs (aplicarRegra r s) := rfl

/-- Structuring a bare issue-timestamp line deletes the value. -/
theorem estruturar_data_value (v : List Char) (hv : v.all valorDataOk = true) :
    estruturar_texto ⟨"Data e Hora de Emissão: ".data ++ v⟩ =
      "\nData e Hora de Emissão: " := by
  have hmem : ∀ c ∈ v, valorDataOk c = true := fun c hc => List.all_eq_true.mp hv c hc
  have hC : ('Ç' : Char) ∉ "Data e Hora de Emissão: ".data ++ v := by
    intro hm
    rcases List.mem_append.mp hm with h | h
    · exact absurd h (by decide)
    · exact absurd (hmem _ h) (by decide)
  have hU : ('ú' : Char) ∉ "Data e Hora de Emissão: ".data ++ v := by
    intro hm
    rcases List.mem_append.mp hm with h | h
    · exact absurd h (by decide)
    · exact absurd (hmem _ h) (by decide)
  have e1 := aplicarRegra_id_of_missing (regraSecao "PRESTADOR DE SERVIÇOS") 'Ç'
      ("Data e Hora de Emissão: ".data ++ v) (by decide) hC
  have e2 := aplicarRegra_id_of_missing (regraSecao "TOMADOR DE SERVIÇOS") 'Ç'
      ("Data e Hora de Emissão: ".data ++ v) (by decide) hC
  have e3 := aplicarRegra_id_of_missing (regraSecao "DISCRIMINAÇÃO DOS SERVIÇOS") 'Ç'
      ("Data e Hora de Emissão: ".data ++ v) (by decide) hC
  have e4 := aplicarRegra_id_of_missing regraNumeroNota 'ú'
      ("Data e Hora de Emissão: ".data ++ v) (by decide) hU
  have hw : ∀ c ∈ (' ' :: v), ccMatch CC.anyc c = true := by
    intro c hc
    rcases List.mem_cons.mp hc with h | h
    · rw [h]; rfl
    · exact anyc_of_valorDataOk c (hmem c h)
  have e5 : aplicarRegra regraDataEmissao ("Data e Hora de Emissão: ".data ++ v) =
      "\nData e Hora de Emissão: ".data := by
    have h := aplicarRegra_labelRule "Data e Hora de Emissão".data (' ' :: v)
      (tmpl [RT.lit "\n", RT.grp 1, RT.lit " "]) hw
    exact h
  show (⟨aplicarRegras estruturas ("Data e Hora de Emissão: ".data ++ v)⟩ :
    String) = _
  rw [show estruturas = [regraSecao "PRESTADOR DE SERVIÇOS",
      regraSecao "TOMADOR DE SERVIÇOS", regraSecao "DISCRIMINAÇÃO DOS SERVIÇOS",
      regraNumeroNota, regraDataEmissao, regraCodigoVerificacao,
      regraListas, regraMoeda] from rfl]
  rw [aplicarRegras_cons, e1, aplicarRegras_cons, e2, aplicarRegras_cons, e3,
      aplicarRegras_cons, e4, aplicarRegras_cons, e5]
  decide

/-- Structuring a bare verification-code line deletes the value. -/
theorem estruturar_codigo_value (v : List Char)
    (hv : v.all valorCodigoOk = true) :
    estruturar_texto ⟨"Código de Verificação: ".data ++ v⟩ =
      "\nCódigo de Verificação: " := by
  have hmem : ∀ c ∈ v, valorCodigoOk c = true := fun c hc => List.all_eq_true.mp hv c hc
  have hC : ('Ç' : Char) ∉ "Código de Verificação: ".data ++ v := by
    intro hm
    rcases List.mem_append.mp hm with h | h
    · exact absurd h (by decide)
    · exact absurd (hmem _ h) (by decide)
  have hU : ('ú' : Char) ∉ "Código de Verificação: ".data ++ v := by
    intro hm
    rcases List.mem_append.mp hm with h | h
    · exact absurd h (by decide)
    · exact absurd (hmem _ h) (by decide)
  have hT : ('t' : Char) ∉ "Código de Verificação: ".data ++ v := by
    intro hm
    rcases List.mem_append.mp hm with h | h
    · exact absurd h (by decide)
    · exact absurd (hmem _ h) (by decide)
  have e1 := aplicarRegra_id_of_missing (regraSecao "PRESTADOR DE SERVIÇOS") 'Ç'
      ("Código de Verificação: ".data ++ v) (by decide) hC
  have e2 := aplicarRegra_id_of_missing (regraSecao "TOMADOR DE SERVIÇOS") 'Ç'
      ("Código de Verificação: ".data ++ v) (by decide) hC
  have e3 := aplicarRegra_id_of_missing (regraSecao "DISCRIMINAÇÃO DOS SERVIÇOS") 'Ç'
      ("Código de Verificação: ".data ++ v) (by decide) hC
  have e4 := aplicarRegra_id_of_missing regraNumeroNota 'ú'
      ("Código de Verificação: ".data ++ v) (by decide) hU
  have e5 := aplicarRegra_id_of_missing regraDataEmissao 't'
      ("Código de Verificação: ".data ++ v) (by decide) hT
  have hw : ∀ c ∈ (' ' :: v), ccMatch CC.anyc c = true := by
    intro c hc
    rcases List.mem_cons.mp hc with h | h
    · rw [h]; rfl
    · exact anyc_of_valorCodigoOk c (hmem c h)
  have e6 : aplicarRegra regraCodigoVerificacao
      ("Código de Verificação: ".data ++ v) =
      "\nCódigo de Verificação: ".data := by
    have h := aplicarRegra_labelRule "Código de Verificação".data (' ' :: v)
      (tmpl [RT.lit "\n", RT.grp 1, RT.lit " "]) hw
    exact h
  show (⟨aplicarRegras estruturas ("Código de Verificação: ".data ++ v)⟩ :
    String) = _
  rw [show estruturas = [regraSecao "PRESTADOR DE SERVIÇOS",
      regraSecao "TOMADOR DE SERVIÇOS", regraSecao "DISCRIMINAÇÃO DOS SERVIÇOS",
      regraNumeroNota, regraDataEmissao, regraCodigoVerificacao,
      regraListas, regraMoeda] from rfl]
  rw [aplicarRegras_cons, e1, aplicarRegras_cons, e2, aplicarRegras_cons, e3,
      aplicarRegras_cons, e4, aplicarRegras_cons, e5, aplicarRegras_cons, e6]
  decide

/-- C10 (amended).  For every issue-timestamp line whose value is made of
digits, slashes, colons and spaces, and every verification-code line whose
value is made of ASCII capitals, digits and spaces, `estruturar_texto`
replaces the whole rest of the line after the label by a single space, so
the value is removed from the output rather than merely preceded by a line
break.  (The original universal claim fails when the value itself triggers
an earlier structuring rule; see the counterexample.) -/
theorem c10_value_deleted_amended :
    (∀ v : List Char, v.all valorDataOk = true →
       estruturar_texto ⟨"Data e Hora de Emissão: ".data ++ v⟩ =
         "\nData e Hora de Emissão: ") ∧
    (∀ v : List Char, v.all valorCodigoOk = true →
       estruturar_texto ⟨"Código de Verificação: ".data ++ v⟩ =
         "\nCódigo de Verificação: ") :=
  ⟨estruturar_data_value, estruturar_codigo_value⟩

/-- C10 (witness). -/
theorem c10_value_deleted_witness :
    ("16/09/2024 10:39:05".data.all valorDataOk = true) ∧
    estruturar_texto "Data e Hora de Emissão: 16/09/2024 10:39:05" =
      "\nData e Hora de Emissão: " ∧
    ("B9OXB608".data.all valorCodigoOk = true) ∧
    estruturar_texto "Código de Verificação: B9OXB608" =
      "\nCódigo de Verificação: " := by
  refine ⟨by decide, ?_, by decide, ?_⟩
  · have h := c10_value_deleted_amended.1 "16/09/2024 10:39:05".data (by decide)
    rw [show ("Data e Hora de Emissão: 16/09/2024 10:39:05" : String) =
        ⟨"Data e Hora de Emissão: ".data ++ "16/09/2024 10:39:05".data⟩
      from by decide]
    exact h
  · have h := c10_value_deleted_amended.2 "B9OXB608".data (by decide)
    rw [show ("Código de Verificação: B9OXB608" : String) =
        ⟨"Código de Verificação: ".data ++ "B9OXB608".data⟩ from by decide]
    exact h

end NFSe
